import Mathlib

/-!
Shallow embedding of the sc-audit-copilot API (kevinonehydra/audit-tool) and
proofs about its ownership gate, resource routes, report pipeline and path
handling.  Definitions are translated from the JavaScript sources under
`apps/api` (primarily `server.js` and `src/routes/*.routes.js`); theorems
settle the specification claims about that code.
-/

namespace AuditTool

/-! ## JavaScript string primitives

JS strings are modelled as Lean `String`s (sequences of `Char`).  `trim`,
`toUpperCase` and `toLowerCase` are modelled for the ASCII range, which covers
every string the routes compare against. -/

/-- ASCII whitespace, as stripped by JS `String.prototype.trim`. -/
def jsIsSpace (c : Char) : Bool :=
  c = ' ' || c = '\t' || c = '\n' || c = '\r'

/-- ASCII case mapping used by JS `toUpperCase`. -/
def jsUpChar (c : Char) : Char :=
  if 'a' ≤ c ∧ c ≤ 'z' then Char.ofNat (c.toNat - 32) else c

/-- ASCII case mapping used by JS `toLowerCase`. -/
def jsLowChar (c : Char) : Char :=
  if 'A' ≤ c ∧ c ≤ 'Z' then Char.ofNat (c.toNat + 32) else c

/-- JS `s.trim()` (ASCII whitespace). -/
def jsTrim (s : String) : String :=
  ⟨((s.data.dropWhile jsIsSpace).reverse.dropWhile jsIsSpace).reverse⟩

/-- JS `s.toUpperCase()` (ASCII). -/
def jsToUpper (s : String) : String := ⟨s.data.map jsUpChar⟩

/-- JS `s.toLowerCase()` (ASCII). -/
def jsToLower (s : String) : String := ⟨s.data.map jsLowChar⟩

/-- JS `x || d` for a nullable string `x`: `null`/`undefined` and `""` are
falsy and give the default. -/
def jsOr (x : Option String) (d : String) : String :=
  match x with
  | none => d
  | some s => if s = "" then d else s

/-- JS truthiness of a nullable string. -/
def struthy : Option String → Bool
  | none => false
  | some s => !(s == "")

/-! ## Data model

Rows of the relational store, as selected by the Prisma queries in the route
handlers.  `Audit.userId` is nullable (legacy ownerless rows). -/

structure Caller where
  sub : String
  email : String
  role : String
deriving DecidableEq

structure AuditRec where
  id : String
  userId : Option String
  title : Option String
  createdAt : Nat
deriving DecidableEq

structure UserRec where
  id : String
  email : String
  passwordHash : String
  role : String
  createdAt : Nat
deriving DecidableEq

structure MediaRec where
  id : String
  auditId : String
  filename : String
  mime : String
  storageKey : String
deriving DecidableEq

structure FindingRec where
  id : String
  auditId : String
  title : String
  severity : String
deriving DecidableEq

structure EvidenceRec where
  findingId : String
  mediaId : String
  note : Option String
deriving DecidableEq

structure Db where
  users : List UserRec
  audits : List AuditRec
  media : List MediaRec
  findings : List FindingRec
  evidence : List EvidenceRec
deriving DecidableEq

/-! ## Ownership gate -/

inductive GateResult where
  | unauthorized
  | notFound
  | forbidden
  | ok (audit : AuditRec)
deriving DecidableEq

/-- `requireAuditOwner` from `apps/api/server.js`: fetch the audit by id
(404 when absent); then `if (req.user?.role !== "admin" && audit.userId !==
req.user?.sub)` reply 403, else return the audit. -/
def requireAuditOwner (db : Db) (user : Caller) (auditId : String) : GateResult :=
  match db.audits.find? (fun a => a.id == auditId) with
  | none => .notFound
  | some audit =>
      if user.role ≠ "admin" ∧ audit.userId ≠ some user.sub then .forbidden
      else .ok audit

/-- `assertAuditAccess` from `apps/api/src/routes/findings.routes.js`:
401 without `req.user`; fetch the audit (404 when absent); then
`if (!isAdmin && ownerId && ownerId !== req.user.sub)` reply 403, else return
the audit.  `ownerId` is tested for JS truthiness, so a null (or empty)
`userId` skips the ownership comparison entirely. -/
def assertAuditAccess (db : Db) (user : Option Caller) (auditId : String) : GateResult :=
  match user with
  | none => .unauthorized
  | some u =>
      match db.audits.find? (fun a => a.id == auditId) with
      | none => .notFound
      | some audit =>
          if ¬(u.role = "admin") ∧ struthy audit.userId = true ∧ audit.userId ≠ some u.sub then
            .forbidden
          else .ok audit

/-! ## List audits (`GET /audits`, server.js) -/

/-- Insertion step for ordering audits newest-first (`orderBy createdAt desc`). -/
def insertByCreatedDesc (a : AuditRec) : List AuditRec → List AuditRec
  | [] => [a]
  | b :: rest =>
      if b.createdAt ≤ a.createdAt then a :: b :: rest
      else b :: insertByCreatedDesc a rest

/-- `orderBy: { createdAt: "desc" }` of a Prisma `findMany`. -/
def sortByCreatedDesc : List AuditRec → List AuditRec
  | [] => []
  | a :: rest => insertByCreatedDesc a (sortByCreatedDesc rest)

/-- `GET /audits` from `apps/api/server.js`: `take` capped at 100, `skip`
clamped to ≥ 0 (a `Nat` here), `where` filters to the caller's own audits
unless the caller is an admin, ordered newest-first. -/
def listAudits (db : Db) (user : Caller) (takeQ skipQ : Nat) : List AuditRec :=
  let takeN := min takeQ 100
  let wherePred : AuditRec → Bool :=
    if user.role == "admin" then fun _ => true
    else fun a => a.userId == some user.sub
  ((sortByCreatedDesc (db.audits.filter wherePred)).drop skipQ).take takeN

/-! ## Evidence attachment (`POST /findings/:findingId/evidence`, findings.routes.js) -/

inductive EvidenceResp where
  | badRequest (message : String)
  | respNotFound (message : String)
  | respForbidden
  | respUnauthorized
  | created (evidence : EvidenceRec)
  | serverError (message : String)
deriving DecidableEq

/-- `POST /findings/:findingId/evidence` from
`apps/api/src/routes/findings.routes.js`: requires a truthy string `mediaId`;
404 when the finding is missing; access is checked on the finding's audit via
`assertAuditAccess`; 404 when the media row is missing; 400 with an explicit
message when the media belongs to a different audit; otherwise the
`FindingEvidence` row is inserted (a duplicate `(findingId, mediaId)` pair
violates the unique constraint, surfaced as a 500).  Returns the response and
the resulting database state. -/
def attachEvidence (db : Db) (user : Option Caller) (findingId : String)
    (mediaId : Option String) (note : Option String) : EvidenceResp × Db :=
  match mediaId with
  | none => (.badRequest "mediaId is required", db)
  | some mid =>
      if mid = "" then (.badRequest "mediaId is required", db)
      else
        match db.findings.find? (fun f => f.id == findingId) with
        | none => (.respNotFound "Finding not found", db)
        | some finding =>
            match assertAuditAccess db user finding.auditId with
            | .unauthorized => (.respUnauthorized, db)
            | .notFound => (.respNotFound "Audit not found", db)
            | .forbidden => (.respForbidden, db)
            | .ok _ =>
                match db.media.find? (fun m => m.id == mid) with
                | none => (.respNotFound "Media not found", db)
                | some media =>
                    if media.auditId ≠ finding.auditId then
                      (.badRequest "Media must belong to the same audit as the finding", db)
                    else if db.evidence.any
                        (fun e => e.findingId == findingId && e.mediaId == mid) then
                      (.serverError "Unique constraint failed on the fields: (findingId,mediaId)", db)
                    else
                      let e : EvidenceRec := { findingId := findingId, mediaId := mid, note := note }
                      (.created e, { db with evidence := db.evidence ++ [e] })

/-! ## Registration (`POST /auth/register`, server.js) -/

inductive RegisterResp where
  | badRequest (message : String)
  | conflict (message : String)
  | created (id email role : String)
deriving DecidableEq

/-- `POST /auth/register` from `apps/api/server.js`: normalizes the email
(trim + lowercase), 400 when email or password is falsy, 409 when a user with
the normalized email already exists, otherwise stores a new user (role
defaults to `auditor`) with the bcrypt hash of the password; `hash` abstracts
the external `bcrypt.hash(·, 10)`.  `newId`/`now` stand for the id and
timestamp generated by the database. -/
def registerUser (hash : String → String) (db : Db)
    (email password role : Option String) (newId : String) (now : Nat) :
    RegisterResp × Db :=
  let cleanEmail := jsToLower (jsTrim (email.getD ""))
  let cleanRole := jsTrim (jsOr role "auditor")
  if cleanEmail = "" ∨ struthy password = false then
    (.badRequest "email and password are required", db)
  else
    match db.users.find? (fun u => u.email == cleanEmail) with
    | some _ => (.conflict "User already exists", db)
    | none =>
        let user : UserRec :=
          { id := newId, email := cleanEmail
            passwordHash := hash (password.getD "")
            role := cleanRole, createdAt := now }
        (.created newId cleanEmail cleanRole, { db with users := db.users ++ [user] })

/-! ## Bearer tokens (`@fastify/jwt` as registered by server.js) -/

structure JwtClaims where
  sub : String
  email : String
  role : String
  iat : Nat
  exp : Option Nat
deriving DecidableEq

/-- A signed token: its claim set plus the secret it was signed with (the
signature is abstracted as the signing secret). -/
structure Token where
  claims : JwtClaims
  signedWith : String
deriving DecidableEq

/-- Signing as performed by `reply.jwtSign({sub, email, role})` under
`app.register(jwt, { secret: JWT_SECRET })` in `apps/api/server.js`: the
external library stamps an `iat` claim, and adds an `exp` claim only when an
`expiresIn` option is configured — the repository configures none, so no
`exp` claim is ever added. -/
def jwtSign (secret : String) (sub email role : String) (now : Nat) : Token :=
  { claims := { sub := sub, email := email, role := role, iat := now, exp := none }
    signedWith := secret }

/-- `req.jwtVerify()`: rejects a wrong signature; rejects an expired token
when an `exp` claim is present; otherwise yields the claim set. -/
def jwtVerify (secret : String) (now : Nat) (t : Token) : Option JwtClaims :=
  if t.signedWith == secret then
    match t.claims.exp with
    | none => some t.claims
    | some e => if now < e then some t.claims else none
  else none

inductive AuthResult where
  | denied (status : Nat) (message : String)
  | granted (claims : JwtClaims)
deriving DecidableEq

/-- The `requireAuth` decorator from `apps/api/server.js`: 401 when no Bearer
token is supplied, 401 when `jwtVerify` fails, otherwise the decoded claims
populate `req.user`. -/
def requireAuth (secret : String) (now : Nat) (bearer : Option Token) : AuthResult :=
  match bearer with
  | none => .denied 401 "Missing Bearer token"
  | some tok =>
      match jwtVerify secret now tok with
      | none => .denied 401 "Invalid token"
      | some c => .granted c

inductive LoginResp where
  | badRequest (message : String)
  | invalidCredentials (message : String)
  | loggedIn (token : Token) (id email role : String)
deriving DecidableEq

/-- `POST /auth/login` from `apps/api/server.js`: normalized-email lookup,
generic 401 on a missing user or a failed `bcrypt.compare` (abstracted as
`compare`), and on success a token signed over `{sub, email, role}`. -/
def login (compare : String → String → Bool) (secret : String) (db : Db)
    (email password : Option String) (now : Nat) : LoginResp :=
  let cleanEmail := jsToLower (jsTrim (email.getD ""))
  if cleanEmail = "" ∨ struthy password = false then
    .badRequest "email and password are required"
  else
    match db.users.find? (fun u => u.email == cleanEmail) with
    | none => .invalidCredentials "Invalid credentials"
    | some user =>
        if compare (password.getD "") user.passwordHash then
          .loggedIn (jwtSign secret user.id user.email user.role now)
            user.id user.email user.role
        else .invalidCredentials "Invalid credentials"

/-! ## CSV status normalization and summary (server.js) -/

/-- `normalizeStatus` from `apps/api/server.js`: trim + uppercase, then
`PASS|OK → PASS`, `FAIL|NG → FAIL`, `NA|N/A → NA`, empty → `UNKNOWN`,
anything else passed through uppercased. -/
def normalizeStatus (s : String) : String :=
  let v := jsToUpper (jsTrim s)
  if v = "PASS" ∨ v = "OK" then "PASS"
  else if v = "FAIL" ∨ v = "NG" then "FAIL"
  else if v = "NA" ∨ v = "N/A" then "NA"
  else if v ≠ "" then v
  else "UNKNOWN"

/-- One report item `{idx, id, status, comment}` as built by the report
upload route. -/
structure ReportItem where
  idx : Nat
  id : String
  status : String
  comment : String
deriving DecidableEq

structure Summary where
  total : Nat
  pass : Nat
  fail : Nat
  na : Nat
  unknown : Nat
deriving DecidableEq

/-- Loop body of `computeSummary` from `apps/api/server.js`. -/
def summaryStep (s : Summary) (it : ReportItem) : Summary :=
  if it.status = "PASS" then { s with pass := s.pass + 1 }
  else if it.status = "FAIL" then { s with fail := s.fail + 1 }
  else if it.status = "NA" then { s with na := s.na + 1 }
  else { s with unknown := s.unknown + 1 }

/-- `computeSummary` from `apps/api/server.js`: `total` is the item count and
each item bumps exactly one of the four status counters. -/
def computeSummary (items : List ReportItem) : Summary :=
  items.foldl summaryStep
    { total := items.length, pass := 0, fail := 0, na := 0, unknown := 0 }

def isPassItem (it : ReportItem) : Bool := it.status == "PASS"

def isFailItem (it : ReportItem) : Bool := it.status == "FAIL"

def isNaItem (it : ReportItem) : Bool := it.status == "NA"

def isOtherItem (it : ReportItem) : Bool :=
  !(it.status == "PASS" || it.status == "FAIL" || it.status == "NA")

/-! ## PDF builder (server.js) -/

/-- The text drawn for one item by the `for (const it of items)` loop in
`buildPdfBuffer`. -/
def pdfItemLine (it : ReportItem) : String :=
  toString it.idx ++ ". " ++ it.id ++ " — " ++ it.status ++ " — " ++ it.comment

/-- The fixed heading drawn by `buildPdfBuffer` before the item loop: the
title (defaulted when falsy), the five summary counters and the `Items:`
label. -/
def pdfHeaderLines (title : Option String) (summary : Summary) : List String :=
  [ jsOr title "Audit Report"
  , "Total: " ++ toString summary.total
  , "PASS: " ++ toString summary.pass
  , "FAIL: " ++ toString summary.fail
  , "N/A: " ++ toString summary.na
  , "UNKNOWN: " ++ toString summary.unknown
  , "Items:" ]

/-- All text lines drawn into the document by `buildPdfBuffer` in
`apps/api/server.js`, in order, before `doc.end()` closes the document and
the buffer is returned. -/
def pdfLines (title : Option String) (summary : Summary)
    (items : List ReportItem) : List String :=
  pdfHeaderLines title summary ++ items.map pdfItemLine

/-- Number of item lines drawn by `buildPdfBuffer`'s item loop. -/
def pdfItemLineCount (items : List ReportItem) : Nat :=
  (items.map pdfItemLine).length

/-! ## Path resolution and `safeJoin` (server.js)

Node's POSIX `path.resolve` is modelled over `List Char`: the inputs are cut
at `/` separators, the components are normalized with the usual `.`/`..`
processing, and the result is rendered back as an absolute path string.
`STORAGE_ROOT` is an absolute path (`path.resolve(process.cwd(), ...)`), so
resolution is modelled for an absolute base. -/

/-- Cut a path string at every `/` (so `"a//b"` yields `a`, ``, `b`). -/
def splitSlash : List Char → List (List Char)
  | [] => [[]]
  | c :: cs =>
      if c = '/' then [] :: splitSlash cs
      else
        match splitSlash cs with
        | [] => [[c]]
        | p :: ps => (c :: p) :: ps

/-- One step of POSIX path normalization: empty and `.` components vanish,
`..` pops the last kept component (staying at the root when there is none),
anything else is kept. -/
def normStep (stack : List (List Char)) (comp : List Char) : List (List Char) :=
  if comp = [] ∨ comp = ['.'] then stack
  else if comp = ['.', '.'] then stack.dropLast
  else stack ++ [comp]

/-- POSIX normalization of a component sequence. -/
def normalizeComps (comps : List (List Char)) : List (List Char) :=
  comps.foldl normStep []

/-- Render components of an absolute path, each preceded by `/`. -/
def renderTail : List (List Char) → List Char
  | [] => []
  | p :: ps => '/' :: (p ++ renderTail ps)

/-- Render an absolute path: `/` for the root, `/a/b` otherwise. -/
def renderAbs (comps : List (List Char)) : List Char :=
  if comps = [] then ['/'] else renderTail comps

/-- Components of `path.resolve(base, rel)` for an absolute `base`: an
absolute `rel` wins outright, otherwise `rel` is resolved against `base`. -/
def resolveComps (base rel : List Char) : List (List Char) :=
  if rel.head? = some '/' then normalizeComps (splitSlash rel)
  else normalizeComps (splitSlash base ++ splitSlash rel)

/-- Node `path.resolve(base, rel)` (POSIX, absolute `base`). -/
def resolvePath (base rel : List Char) : List Char :=
  renderAbs (resolveComps base rel)

/-- Components of `path.resolve(base)`: the normalized base itself. -/
def rootComps (base : List Char) : List (List Char) :=
  normalizeComps (splitSlash base)

/-- Node `path.resolve(baseDir)` (POSIX, absolute `baseDir`). -/
def resolveBase (base : List Char) : List Char :=
  renderAbs (rootComps base)

/-- `safeJoin` from `apps/api/server.js` lines 112–119: resolve the storage
key against the base directory and throw `"Unsafe path"` unless the resolved
string starts with the resolved base followed by the path separator, or is
the base itself. -/
def safeJoin (baseDir storageKey : List Char) : Except (List Char) (List Char) :=
  if ¬((resolveBase baseDir ++ ['/']).isPrefixOf (resolvePath baseDir storageKey) = true)
      ∧ resolvePath baseDir storageKey ≠ resolveBase baseDir then
    .error ("Unsafe path".data)
  else .ok (resolvePath baseDir storageKey)

/-- A resolved storage key stays inside the storage root exactly when the
root's components are an initial segment of the resolved components. -/
def insideRoot (baseDir storageKey : List Char) : Bool :=
  (rootComps baseDir).isPrefixOf (resolveComps baseDir storageKey)

/-- A well-formed path component: nonempty and free of the separator. -/
def goodComp (p : List Char) : Prop := p ≠ [] ∧ '/' ∉ p

/-! ## Helper lemmas -/

theorem foldl_summaryStep (items : List ReportItem) (s : Summary) :
    items.foldl summaryStep s =
      { total := s.total
        pass := s.pass + items.countP isPassItem
        fail := s.fail + items.countP isFailItem
        na := s.na + items.countP isNaItem
        unknown := s.unknown + items.countP isOtherItem } := by
  induction items generalizing s with
  | nil => simp
  | cons it rest ih =>
      rw [List.foldl_cons, ih]
      rcases eq_or_ne it.status "PASS" with h1 | h1
      · simp [summaryStep, isPassItem, isFailItem, isNaItem, isOtherItem,
          List.countP_cons, h1, Summary.mk.injEq]
        omega
      · rcases eq_or_ne it.status "FAIL" with h2 | h2
        · simp [summaryStep, isPassItem, isFailItem, isNaItem, isOtherItem,
            List.countP_cons, h1, h2, Summary.mk.injEq]
          omega
        · rcases eq_or_ne it.status "NA" with h3 | h3
          · simp [summaryStep, isPassItem, isFailItem, isNaItem, isOtherItem,
              List.countP_cons, h1, h2, h3, Summary.mk.injEq]
            omega
          · simp [summaryStep, isPassItem, isFailItem, isNaItem, isOtherItem,
              List.countP_cons, h1, h2, h3, Summary.mk.injEq]
            omega

theorem countP_status_partition (items : List ReportItem) :
    items.countP isPassItem + items.countP isFailItem + items.countP isNaItem
      + items.countP isOtherItem = items.length := by
  induction items with
  | nil => simp
  | cons it rest ih =>
      rcases eq_or_ne it.status "PASS" with h1 | h1
      · simp [isPassItem, isFailItem, isNaItem, isOtherItem, List.countP_cons, h1]
        omega
      · rcases eq_or_ne it.status "FAIL" with h2 | h2
        · simp [isPassItem, isFailItem, isNaItem, isOtherItem, List.countP_cons, h1, h2]
          omega
        · rcases eq_or_ne it.status "NA" with h3 | h3
          · simp [isPassItem, isFailItem, isNaItem, isOtherItem, List.countP_cons, h1, h2, h3]
            omega
          · simp [isPassItem, isFailItem, isNaItem, isOtherItem, List.countP_cons, h1, h2, h3]
            omega

theorem mem_insertByCreatedDesc {x a : AuditRec} {l : List AuditRec}
    (h : x ∈ insertByCreatedDesc a l) : x = a ∨ x ∈ l := by
  induction l with
  | nil => simpa [insertByCreatedDesc] using h
  | cons b rest ih =>
      rw [insertByCreatedDesc] at h
      split at h
      · simpa using h
      · rcases List.mem_cons.mp h with h | h
        · exact Or.inr (List.mem_cons.mpr (Or.inl h))
        · rcases ih h with h | h
          · exact Or.inl h
          · exact Or.inr (List.mem_cons.mpr (Or.inr h))

theorem mem_sortByCreatedDesc {x : AuditRec} {l : List AuditRec}
    (h : x ∈ sortByCreatedDesc l) : x ∈ l := by
  induction l with
  | nil => simp [sortByCreatedDesc] at h
  | cons b rest ih =>
      rw [sortByCreatedDesc] at h
      rcases mem_insertByCreatedDesc h with h | h
      · exact List.mem_cons.mpr (Or.inl h)
      · exact List.mem_cons.mpr (Or.inr (ih h))

/-! ## Claim C6 -/

/-- Claim C6: `computeSummary` returns `total = N` together with the exact
counts of `PASS`, `FAIL`, `NA` and other statuses, and
`pass + fail + na + unknown = total` holds for every item list. -/
theorem computeSummary_spec (items : List ReportItem) :
    (computeSummary items).total = items.length
    ∧ (computeSummary items).pass = items.countP isPassItem
    ∧ (computeSummary items).fail = items.countP isFailItem
    ∧ (computeSummary items).na = items.countP isNaItem
    ∧ (computeSummary items).unknown = items.countP isOtherItem
    ∧ (computeSummary items).pass + (computeSummary items).fail
        + (computeSummary items).na + (computeSummary items).unknown
        = (computeSummary items).total := by
  rw [computeSummary, foldl_summaryStep]
  refine ⟨rfl, by simp, by simp, by simp, by simp, ?_⟩
  simpa using countP_status_partition items

/-! ## Claim C2 -/

/-- Claim C2: every audit returned by `GET /audits` to a non-admin caller has
`userId` equal to the caller's subject id — the listing is filtered to the
caller's own audits. -/
theorem listAudits_only_own (db : Db) (u : Caller) (takeQ skipQ : Nat) (a : AuditRec)
    (hrole : u.role ≠ "admin") (ha : a ∈ listAudits db u takeQ skipQ) :
    a.userId = some u.sub := by
  rw [listAudits] at ha
  simp only [beq_iff_eq, hrole, if_false] at ha
  have h1 := mem_sortByCreatedDesc (List.mem_of_mem_drop (List.mem_of_mem_take ha))
  rw [List.mem_filter] at h1
  exact beq_iff_eq.mp h1.2

/-- Witness for C2 at a concrete database: the sole audit listed for the
non-admin caller `u1` is owned by `u1`. -/
theorem listAudits_only_own_witness :
    (⟨"a1", some "u1", none, 5⟩ : AuditRec).userId = some "u1" :=
  listAudits_only_own
    ⟨[], [⟨"a1", some "u1", none, 5⟩, ⟨"a2", some "u2", none, 9⟩], [], [], []⟩
    ⟨"u1", "u1@x.com", "auditor"⟩ 20 0 ⟨"a1", some "u1", none, 5⟩
    (by decide) (by decide)

/-! ## Claim C5 -/

theorem jsToUpper_eq_empty_iff (s : String) : jsToUpper s = "" ↔ s = "" := by
  cases s with
  | mk d =>
      cases d with
      | nil => simp [jsToUpper]
      | cons c cs =>
          constructor
          · intro h
            exact absurd (congrArg String.data h) (by simp [jsToUpper])
          · intro h
            exact absurd (congrArg String.data h) (by simp)

/-- Claim C5 counterexample: the spec's synonyms `yes` and `no` are not
mapped — `normalizeStatus` passes them through uppercased instead of mapping
them to `PASS` / `FAIL`. -/
theorem normalizeStatus_yes_no_cex :
    normalizeStatus "yes" = "YES" ∧ normalizeStatus "yes" ≠ "PASS"
    ∧ normalizeStatus "no" = "NO" ∧ normalizeStatus "no" ≠ "FAIL" := by
  decide

/-- Claim C5 (amended): `normalizeStatus` trims and uppercases its input and
maps `pass`/`ok` to `PASS`, `fail`/`ng` to `FAIL`, `na`/`n/a` to `NA`
(case-insensitively), the empty or all-whitespace string to `UNKNOWN`, and
passes any other non-empty string through uppercased. -/
theorem normalizeStatus_amended (s : String) :
    (jsToUpper (jsTrim s) = "PASS" ∨ jsToUpper (jsTrim s) = "OK" →
      normalizeStatus s = "PASS")
    ∧ (jsToUpper (jsTrim s) = "FAIL" ∨ jsToUpper (jsTrim s) = "NG" →
      normalizeStatus s = "FAIL")
    ∧ (jsToUpper (jsTrim s) = "NA" ∨ jsToUpper (jsTrim s) = "N/A" →
      normalizeStatus s = "NA")
    ∧ (jsTrim s = "" → normalizeStatus s = "UNKNOWN")
    ∧ (jsTrim s ≠ "" →
      jsToUpper (jsTrim s) ∉ (["PASS", "OK", "FAIL", "NG", "NA", "N/A"] : List String) →
      normalizeStatus s = jsToUpper (jsTrim s)) := by
  refine ⟨?_, ?_, ?_, ?_, ?_⟩
  · intro h
    rcases h with h | h <;> simp [normalizeStatus, h]
  · intro h
    rcases h with h | h <;> simp [normalizeStatus, h]
  · intro h
    rcases h with h | h <;> simp [normalizeStatus, h]
  · intro h
    simp [normalizeStatus, h, jsToUpper]
  · intro h1 h2
    simp only [List.mem_cons, List.not_mem_nil, or_false, not_or] at h2
    obtain ⟨n1, n2, n3, n4, n5, n6⟩ := h2
    have hv : ¬(jsToUpper (jsTrim s) = "") := fun hh => h1 ((jsToUpper_eq_empty_iff _).mp hh)
    simp [normalizeStatus, n1, n2, n3, n4, n5, n6, hv]

/-- Witness for the amended C5: `ok` maps to `PASS` and `Weird` passes
through uppercased. -/
theorem normalizeStatus_amended_witness :
    normalizeStatus "ok" = "PASS" ∧ normalizeStatus "Weird" = "WEIRD" :=
  ⟨(normalizeStatus_amended "ok").1 (Or.inr (by decide)),
   ((normalizeStatus_amended "Weird").2.2.2.2 (by decide) (by decide)).trans (by decide)⟩

/-! ## Claim C9 -/

/-- Claim C9 counterexample: there is no constant bounding the number of item
lines drawn by `buildPdfBuffer` — its loop draws one line for every item of
the input list, however long. -/
theorem pdf_no_item_cap_cex :
    ¬ ∃ K : Nat, ∀ items : List ReportItem, pdfItemLineCount items ≤ K := by
  rintro ⟨K, h⟩
  have hK := h (List.replicate (K + 1) ⟨1, "x", "PASS", ""⟩)
  simp [pdfItemLineCount] at hK

/-- Claim C9 (amended): `buildPdfBuffer` draws the title, the five summary
counters and the `Items:` label, followed by exactly one line per item — the
number of item lines equals the length of the input list (there is no
defensive cap), and the buffer is assembled from these lines once the
document is closed. -/
theorem pdfLines_spec (title : Option String) (summary : Summary)
    (items : List ReportItem) :
    (pdfLines title summary items).length = 7 + items.length
    ∧ pdfItemLineCount items = items.length
    ∧ jsOr title "Audit Report" ∈ pdfLines title summary items
    ∧ ("Total: " ++ toString summary.total) ∈ pdfLines title summary items := by
  refine ⟨?_, ?_, ?_, ?_⟩
  · simp [pdfLines, pdfHeaderLines]
    omega
  · simp [pdfItemLineCount]
  · simp [pdfLines, pdfHeaderLines]
  · simp [pdfLines, pdfHeaderLines]

/-! ## Claim C1 -/

/-- Claim C1 counterexample: `assertAuditAccess` (the findings routes'
ownership gate) grants a non-admin caller access to an audit whose `userId`
is not the caller's subject id — a null-owner audit is granted although
`audit.userId ≠ some caller.sub`, so access is not granted "exactly when
`audit.userId` equals the caller's subject id". -/
theorem assertAuditAccess_null_owner_cex :
    assertAuditAccess ⟨[], [⟨"a1", none, none, 0⟩], [], [], []⟩
        (some ⟨"u1", "u1@x.com", "auditor"⟩) "a1"
      = GateResult.ok ⟨"a1", none, none, 0⟩
    ∧ (⟨"a1", none, none, 0⟩ : AuditRec).userId ≠ some "u1"
    ∧ ("auditor" : String) ≠ "admin" := by
  decide

/-- Claim C1 (amended): both gates return NotFound when the audit is absent;
an admin is granted unconditionally; `requireAuditOwner` grants a non-admin
exactly when `audit.userId` equals the caller's subject id, while
`assertAuditAccess` additionally grants whenever the owner field is falsy
(null or empty); in both gates an audit owned by a different (truthy) user is
never granted to a non-admin caller. -/
theorem ownershipGate_amended (db : Db) (u : Caller) (auditId : String) :
    (db.audits.find? (fun a => a.id == auditId) = none →
      requireAuditOwner db u auditId = .notFound
      ∧ assertAuditAccess db (some u) auditId = .notFound)
    ∧ (∀ audit, db.audits.find? (fun a => a.id == auditId) = some audit →
        (requireAuditOwner db u auditId =
          if u.role = "admin" ∨ audit.userId = some u.sub then .ok audit else .forbidden)
        ∧ (assertAuditAccess db (some u) auditId =
          if u.role = "admin" ∨ struthy audit.userId = false ∨ audit.userId = some u.sub
          then .ok audit else .forbidden)
        ∧ (∀ b : String, u.role ≠ "admin" → audit.userId = some b → b ≠ u.sub →
            requireAuditOwner db u auditId = .forbidden
            ∧ (b ≠ "" → assertAuditAccess db (some u) auditId = .forbidden))) := by
  constructor
  · intro h
    exact ⟨by simp [requireAuditOwner, h], by simp [assertAuditAccess, h]⟩
  · intro audit h
    refine ⟨?_, ?_, ?_⟩
    · rw [requireAuditOwner, h]
      by_cases h1 : u.role = "admin" <;> by_cases h2 : audit.userId = some u.sub <;>
        simp [h1, h2]
    · rw [assertAuditAccess, h]
      by_cases h1 : u.role = "admin" <;> by_cases h2 : audit.userId = some u.sub <;>
        by_cases h3 : struthy audit.userId = true <;>
        simp [h1, h2, h3]
    · intro b hrole hb hbne
      constructor
      · simp [requireAuditOwner, h, hrole, hb, hbne]
      · intro hbe
        simp [assertAuditAccess, h, hrole, hb, hbne, struthy, hbe]

/-- Witness for the amended C1 at a concrete database: an audit owned by `u2`
is forbidden to the non-admin caller `u1` by both gates. -/
theorem ownershipGate_amended_witness :
    requireAuditOwner ⟨[], [⟨"a1", some "u2", none, 0⟩], [], [], []⟩
        ⟨"u1", "u1@x.com", "auditor"⟩ "a1" = GateResult.forbidden
    ∧ assertAuditAccess ⟨[], [⟨"a1", some "u2", none, 0⟩], [], [], []⟩
        (some ⟨"u1", "u1@x.com", "auditor"⟩) "a1" = GateResult.forbidden := by
  have h := ((ownershipGate_amended ⟨[], [⟨"a1", some "u2", none, 0⟩], [], [], []⟩
      ⟨"u1", "u1@x.com", "auditor"⟩ "a1").2 ⟨"a1", some "u2", none, 0⟩ (by decide)).2.2
      "u2" (by decide) (by decide) (by decide)
  exact ⟨h.1, h.2 (by decide)⟩

/-! ## Claim C10 -/

/-- Claim C10: on a null-owner audit the findings routes' `assertAuditAccess`
grants every authenticated caller regardless of role, the entrypoint's
`requireAuditOwner` forbids every non-admin caller, and consequently the two
ownership checks are not equivalent. -/
theorem gates_disagree_on_null_owner :
    (∀ (db : Db) (u : Caller) (auditId : String) (audit : AuditRec),
        db.audits.find? (fun a => a.id == auditId) = some audit →
        audit.userId = none →
        assertAuditAccess db (some u) auditId = .ok audit)
    ∧ (∀ (db : Db) (u : Caller) (auditId : String) (audit : AuditRec),
        db.audits.find? (fun a => a.id == auditId) = some audit →
        audit.userId = none → u.role ≠ "admin" →
        requireAuditOwner db u auditId = .forbidden)
    ∧ (∃ (db : Db) (u : Caller) (auditId : String),
        assertAuditAccess db (some u) auditId ≠ requireAuditOwner db u auditId) := by
  refine ⟨?_, ?_, ?_⟩
  · intro db u auditId audit hf hnull
    simp [assertAuditAccess, hf, hnull, struthy]
  · intro db u auditId audit hf hnull hrole
    simp [requireAuditOwner, hf, hnull, hrole]
  · exact ⟨⟨[], [⟨"a1", none, none, 0⟩], [], [], []⟩, ⟨"u1", "u1@x.com", "auditor"⟩,
      "a1", by decide⟩

/-- Witness for C10 at a concrete database: the null-owner audit is granted
to an arbitrary authenticated non-admin caller by `assertAuditAccess`. -/
theorem gates_disagree_witness :
    assertAuditAccess ⟨[], [⟨"a1", none, none, 7⟩], [], [], []⟩
        (some ⟨"u9", "u9@x.com", "auditor"⟩) "a1"
      = GateResult.ok ⟨"a1", none, none, 7⟩ :=
  gates_disagree_on_null_owner.1 ⟨[], [⟨"a1", none, none, 7⟩], [], [], []⟩
    ⟨"u9", "u9@x.com", "auditor"⟩ "a1" ⟨"a1", none, none, 7⟩ (by decide) (by decide)

/-! ## Claim C4 -/

/-- Claim C4: an authorized attach-evidence request whose `mediaId` refers to
a media file of a different audit than the finding's audit fails with 400 and
the explicit message, and the database — in particular the evidence store —
is returned unchanged. -/
theorem attachEvidence_cross_audit (db : Db) (user : Option Caller)
    (findingId mid : String) (note : Option String)
    (finding : FindingRec) (audit : AuditRec) (media : MediaRec)
    (hmid : mid ≠ "")
    (hfind : db.findings.find? (fun f => f.id == findingId) = some finding)
    (hacc : assertAuditAccess db user finding.auditId = .ok audit)
    (hmedia : db.media.find? (fun m => m.id == mid) = some media)
    (hdiff : media.auditId ≠ finding.auditId) :
    attachEvidence db user findingId (some mid) note
      = (.badRequest "Media must belong to the same audit as the finding", db) := by
  simp [attachEvidence, hmid, hfind, hacc, hmedia, hdiff]

/-- Witness for C4 at a concrete database: media `m2` belongs to audit `a2`
while finding `f1` belongs to audit `a1`, so the attach fails with 400 and
the database is unchanged. -/
theorem attachEvidence_cross_audit_witness :
    attachEvidence
        ⟨[], [⟨"a1", some "u1", none, 0⟩, ⟨"a2", some "u1", none, 0⟩],
         [⟨"m2", "a2", "f.png", "image/png", "k"⟩], [⟨"f1", "a1", "t", "medium"⟩], []⟩
        (some ⟨"u1", "u1@x.com", "auditor"⟩) "f1" (some "m2") none
      = (EvidenceResp.badRequest "Media must belong to the same audit as the finding",
         ⟨[], [⟨"a1", some "u1", none, 0⟩, ⟨"a2", some "u1", none, 0⟩],
          [⟨"m2", "a2", "f.png", "image/png", "k"⟩], [⟨"f1", "a1", "t", "medium"⟩], []⟩) :=
  attachEvidence_cross_audit
    ⟨[], [⟨"a1", some "u1", none, 0⟩, ⟨"a2", some "u1", none, 0⟩],
     [⟨"m2", "a2", "f.png", "image/png", "k"⟩], [⟨"f1", "a1", "t", "medium"⟩], []⟩
    (some ⟨"u1", "u1@x.com", "auditor"⟩) "f1" "m2" none
    ⟨"f1", "a1", "t", "medium"⟩ ⟨"a1", some "u1", none, 0⟩
    ⟨"m2", "a2", "f.png", "image/png", "k"⟩
    (by decide) (by decide) (by decide) (by decide) (by decide)

/-! ## Claim C7 -/

theorem find?_append_right {α : Type} (p : α → Bool) (l : List α) (x : α)
    (hl : l.find? p = none) (hx : p x = true) :
    (l ++ [x]).find? p = some x := by
  induction l with
  | nil => simp [List.find?, hx]
  | cons a as ih =>
      rw [List.find?_eq_none] at hl
      have ha : ¬(p a = true) := hl a (List.mem_cons_self a as)
      have has : as.find? p = none :=
        List.find?_eq_none.mpr (fun y hy => hl y (List.mem_cons.mpr (Or.inr hy)))
      rw [List.cons_append, List.find?_cons_of_neg _ ha, ih has]

/-- Claim C7: once a registration for a normalized email has succeeded, a
second registration attempt with the same normalized email (and a present
password) yields Conflict 409 and leaves the user table unchanged. -/
theorem register_twice_conflict (hash : String → String) (db db1 : Db)
    (email password role email2 password2 role2 : Option String)
    (newId newId2 : String) (now now2 : Nat) (r : RegisterResp)
    (hfirst : registerUser hash db email password role newId now = (r, db1))
    (hcreated : ∃ i e ro, r = RegisterResp.created i e ro)
    (hemail : jsToLower (jsTrim (email2.getD "")) = jsToLower (jsTrim (email.getD "")))
    (hpw : struthy password2 = true) :
    registerUser hash db1 email2 password2 role2 newId2 now2
      = (RegisterResp.conflict "User already exists", db1) := by
  obtain ⟨i, e, ro, hr⟩ := hcreated
  subst hr
  simp only [registerUser] at hfirst
  by_cases hbad : jsToLower (jsTrim (email.getD "")) = "" ∨ struthy password = false
  · rw [if_pos hbad] at hfirst
    exact absurd (congrArg Prod.fst hfirst) (by simp)
  · rw [if_neg hbad] at hfirst
    rw [not_or] at hbad
    cases hx : db.users.find? (fun u => u.email == jsToLower (jsTrim (email.getD ""))) with
    | some w =>
        rw [hx] at hfirst
        exact absurd (congrArg Prod.fst hfirst) (by simp)
    | none =>
        rw [hx] at hfirst
        have hdb1 : db1 = { db with users := db.users ++
            [{ id := newId, email := jsToLower (jsTrim (email.getD ""))
               passwordHash := hash (password.getD "")
               role := jsTrim (jsOr role "auditor"), createdAt := now }] } :=
          (congrArg Prod.snd hfirst).symm
        have hfind : db1.users.find?
            (fun u => u.email == jsToLower (jsTrim (email.getD ""))) = some
            { id := newId, email := jsToLower (jsTrim (email.getD ""))
              passwordHash := hash (password.getD "")
              role := jsTrim (jsOr role "auditor"), createdAt := now } := by
          rw [hdb1]
          exact find?_append_right _ _ _ hx (by simp)
        simp only [registerUser, hemail, hfind]
        rw [if_neg (by simp [hbad.1, hpw])]

/-- Witness for C7 at a concrete database: registering `" A@x.COM "` and then
`"a@x.com"` again yields Conflict and leaves the single stored user row. -/
theorem register_twice_conflict_witness :
    registerUser (fun p => p ++ "#h")
        ⟨[⟨"id1", "a@x.com", "pw#h", "auditor", 5⟩], [], [], [], []⟩
        (some "a@x.com") (some "pw2") none "id2" 9
      = (RegisterResp.conflict "User already exists",
         ⟨[⟨"id1", "a@x.com", "pw#h", "auditor", 5⟩], [], [], [], []⟩) :=
  register_twice_conflict (fun p => p ++ "#h") ⟨[], [], [], [], []⟩
    ⟨[⟨"id1", "a@x.com", "pw#h", "auditor", 5⟩], [], [], [], []⟩
    (some " A@x.COM ") (some "pw") none (some "a@x.com") (some "pw2") none
    "id1" "id2" 5 9 (RegisterResp.created "id1" "a@x.com" "auditor")
    (by decide) ⟨"id1", "a@x.com", "auditor", rfl⟩ (by decide) (by decide)

/-! ## Claim C8 -/

/-- Claim C8 counterexample: a token issued by a successful login carries no
`exp` claim — the claim set is `{sub, email, role, iat}` only, so the claimed
`exp` member is absent. -/
theorem login_token_no_exp_cex :
    login (fun p h => p == h) "secret"
        ⟨[⟨"u1", "alice@x.com", "pw", "auditor", 0⟩], [], [], [], []⟩
        (some "alice@x.com") (some "pw") 1000
      = LoginResp.loggedIn (jwtSign "secret" "u1" "alice@x.com" "auditor" 1000)
          "u1" "alice@x.com" "auditor"
    ∧ (jwtSign "secret" "u1" "alice@x.com" "auditor" 1000).claims.exp = none := by
  decide

/-- Claim C8 (amended): every token issued by a successful login is a signed
claim set containing exactly `sub`, `email`, `role` and `iat` — no `exp` is
configured, so issued tokens never expire; a missing or invalid token is
rejected with 401 uniformly, and a token carrying a past `exp` would also be
rejected. -/
theorem bearer_token_amended (compare : String → String → Bool) (secret : String)
    (db : Db) (email password : Option String) (now : Nat)
    (tok : Token) (i e r : String)
    (h : login compare secret db email password now = .loggedIn tok i e r) :
    tok.claims = { sub := i, email := e, role := r, iat := now, exp := none }
    ∧ (∀ now2, requireAuth secret now2 none = .denied 401 "Missing Bearer token")
    ∧ (∀ now2 t, jwtVerify secret now2 t = none →
        requireAuth secret now2 (some t) = .denied 401 "Invalid token")
    ∧ (∀ now2 t, t.signedWith ≠ secret → jwtVerify secret now2 t = none)
    ∧ (∀ now2 t ex, t.claims.exp = some ex → ex ≤ now2 → jwtVerify secret now2 t = none) := by
  refine ⟨?_, fun now2 => rfl, ?_, ?_, ?_⟩
  · simp only [login] at h
    by_cases hbad : jsToLower (jsTrim (email.getD "")) = "" ∨ struthy password = false
    · rw [if_pos hbad] at h
      exact absurd h (by simp)
    · rw [if_neg hbad] at h
      cases hx : db.users.find? (fun u => u.email == jsToLower (jsTrim (email.getD ""))) with
      | none =>
          rw [hx] at h
          exact absurd h (by simp)
      | some user =>
          rw [hx] at h
          have h2 : (if compare (password.getD "") user.passwordHash = true then
              LoginResp.loggedIn (jwtSign secret user.id user.email user.role now)
                user.id user.email user.role
            else LoginResp.invalidCredentials "Invalid credentials")
              = LoginResp.loggedIn tok i e r := h
          by_cases hc : compare (password.getD "") user.passwordHash = true
          · rw [if_pos hc] at h2
            obtain ⟨htok, hi, he, hr⟩ := LoginResp.loggedIn.inj h2
            rw [← htok, ← hi, ← he, ← hr]
            rfl
          · rw [if_neg hc] at h2
            exact absurd h2 (by simp)
  · intro now2 t hv
    simp [requireAuth, hv]
  · intro now2 t hs
    simp [jwtVerify, hs]
  · intro now2 t ex hex hle
    rw [jwtVerify, hex]
    by_cases hs : t.signedWith = secret
    · simp [hs, Nat.not_lt.mpr hle]
    · simp [hs]

/-- Witness for the amended C8 at a concrete login: the issued token's claim
set is exactly `{sub, email, role, iat}` with no `exp`. -/
theorem bearer_token_amended_witness :
    (jwtSign "secret" "u1" "alice@x.com" "auditor" 1000).claims
      = { sub := "u1", email := "alice@x.com", role := "auditor", iat := 1000, exp := none } :=
  (bearer_token_amended (fun p h => p == h) "secret"
      ⟨[⟨"u1", "alice@x.com", "pw", "auditor", 0⟩], [], [], [], []⟩
      (some "alice@x.com") (some "pw") 1000
      (jwtSign "secret" "u1" "alice@x.com" "auditor" 1000)
      "u1" "alice@x.com" "auditor" (by decide)).1

/-! ## Claim C3 -/

theorem isPrefixOf_true_iff {α : Type} [BEq α] [LawfulBEq α] (l₁ l₂ : List α) :
    l₁.isPrefixOf l₂ = true ↔ l₁ <+: l₂ :=
  List.isPrefixOf_iff_prefix

theorem splitSlash_no_slash (cs : List Char) : ∀ p ∈ splitSlash cs, '/' ∉ p := by
  induction cs with
  | nil =>
      intro p hp
      rw [splitSlash] at hp
      simp only [List.mem_singleton] at hp
      subst hp
      simp
  | cons c cs ih =>
      intro p hp
      rw [splitSlash] at hp
      by_cases hc : c = '/'
      · rw [if_pos hc] at hp
        rcases List.mem_cons.mp hp with h | h
        · subst h; simp
        · exact ih p h
      · rw [if_neg hc] at hp
        cases hsp : splitSlash cs with
        | nil =>
            rw [hsp] at hp
            simp only [List.mem_singleton] at hp
            subst hp
            intro hmem
            rcases List.mem_cons.mp hmem with h | h
            · exact hc h.symm
            · exact absurd h (List.not_mem_nil _)
        | cons q qs =>
            rw [hsp] at hp
            rcases List.mem_cons.mp hp with h | h
            · subst h
              intro hmem
              rcases List.mem_cons.mp hmem with h | h
              · exact hc h.symm
              · exact ih q (by rw [hsp]; exact List.mem_cons_self q qs) h
            · exact ih p (by rw [hsp]; exact List.mem_cons.mpr (Or.inr h))

theorem foldl_normStep_good (comps : List (List Char)) :
    ∀ stack : List (List Char), (∀ p ∈ stack, goodComp p) →
      (∀ p ∈ comps, '/' ∉ p) →
      ∀ p ∈ comps.foldl normStep stack, goodComp p := by
  induction comps with
  | nil =>
      intro stack hs _ p hp
      exact hs p hp
  | cons c cs ih =>
      intro stack hs hc p hp
      rw [List.foldl_cons] at hp
      refine ih (normStep stack c) ?_ (fun q hq => hc q (List.mem_cons.mpr (Or.inr hq))) p hp
      intro q hq
      rw [normStep] at hq
      by_cases h1 : c = [] ∨ c = ['.']
      · rw [if_pos h1] at hq
        exact hs q hq
      · rw [if_neg h1] at hq
        by_cases h2 : c = ['.', '.']
        · rw [if_pos h2] at hq
          exact hs q ((List.dropLast_sublist stack).subset hq)
        · rw [if_neg h2] at hq
          rcases List.mem_append.mp hq with h | h
          · exact hs q h
          · have hqc : q = c := by simpa using h
            subst hqc
            exact ⟨fun hnil => h1 (Or.inl hnil), hc q (List.mem_cons_self q cs)⟩

theorem normalizeComps_good (comps : List (List Char))
    (h : ∀ p ∈ comps, '/' ∉ p) : ∀ p ∈ normalizeComps comps, goodComp p :=
  foldl_normStep_good comps [] (by simp) h

theorem rootComps_good (base : List Char) : ∀ p ∈ rootComps base, goodComp p :=
  normalizeComps_good _ (splitSlash_no_slash base)

theorem resolveComps_good (base rel : List Char) :
    ∀ p ∈ resolveComps base rel, goodComp p := by
  rw [resolveComps]
  split
  · exact normalizeComps_good _ (splitSlash_no_slash rel)
  · refine normalizeComps_good _ ?_
    intro p hp
    rcases List.mem_append.mp hp with h | h
    · exact splitSlash_no_slash base p h
    · exact splitSlash_no_slash rel p h

theorem chunkSplit_eq : ∀ (b r t u : List Char), '/' ∉ b → '/' ∉ r →
    (t = [] ∨ t.head? = some '/') → (u = [] ∨ u.head? = some '/') →
    b ++ t = r ++ u → b = r ∧ t = u
  | [], [], t, u, _, _, _, _, h => ⟨rfl, by simpa using h⟩
  | [], d :: r', t, u, _, hr, ht, _, h => by
      exfalso
      simp only [List.nil_append] at h
      rcases ht with ht | ht
      · rw [ht] at h
        exact absurd h.symm (by simp)
      · cases t with
        | nil => simp at ht
        | cons c t' =>
            simp only [List.head?_cons, Option.some.injEq] at ht
            rw [List.cons_append] at h
            have hd : c = d := (List.cons.injEq c t' d (r' ++ u)).mp h |>.1
            exact hr (List.mem_cons.mpr (Or.inl (hd ▸ ht).symm))
  | cb :: b', [], t, u, hb, _, _, hu, h => by
      exfalso
      simp only [List.nil_append, List.cons_append] at h
      rcases hu with hu | hu
      · rw [hu] at h
        exact absurd h (by simp)
      · cases u with
        | nil => simp at hu
        | cons cu u' =>
            simp only [List.head?_cons, Option.some.injEq] at hu
            have hd : cb = cu := (List.cons.injEq cb (b' ++ t) cu u').mp h |>.1
            exact hb (List.mem_cons.mpr (Or.inl (hd ▸ hu).symm))
  | cb :: b', d :: r', t, u, hb, hr, ht, hu, h => by
      rw [List.cons_append, List.cons_append] at h
      obtain ⟨h1, h2⟩ := (List.cons.injEq cb (b' ++ t) d (r' ++ u)).mp h
      obtain ⟨e1, e2⟩ := chunkSplit_eq b' r' t u
        (fun hm => hb (List.mem_cons.mpr (Or.inr hm)))
        (fun hm => hr (List.mem_cons.mpr (Or.inr hm))) ht hu h2
      exact ⟨by rw [h1, e1], e2⟩

theorem chunkSplit_pre : ∀ (b r t u : List Char), '/' ∉ b → '/' ∉ r →
    t.head? = some '/' → (u = [] ∨ u.head? = some '/') →
    (b ++ t) <+: (r ++ u) → b = r ∧ t <+: u
  | [], [], t, u, _, _, _, _, h => ⟨rfl, by simpa using h⟩
  | [], d :: r', t, u, _, hr, ht, _, h => by
      exfalso
      cases t with
      | nil => simp at ht
      | cons c t' =>
          simp only [List.head?_cons, Option.some.injEq] at ht
          obtain ⟨s, hs⟩ := h
          simp only [List.nil_append, List.cons_append] at hs
          have hd : c = d := (List.cons.injEq c (t' ++ s) d (r' ++ u)).mp hs |>.1
          exact hr (List.mem_cons.mpr (Or.inl (hd ▸ ht).symm))
  | cb :: b', [], t, u, hb, _, _, hu, h => by
      exfalso
      obtain ⟨s, hs⟩ := h
      simp only [List.nil_append, List.cons_append, List.append_assoc] at hs
      rcases hu with hu | hu
      · rw [hu] at hs
        exact absurd hs (by simp)
      · cases u with
        | nil => simp at hu
        | cons cu u' =>
            simp only [List.head?_cons, Option.some.injEq] at hu
            have hd : cb = cu := (List.cons.injEq cb (b' ++ (t ++ s)) cu u').mp hs |>.1
            exact hb (List.mem_cons.mpr (Or.inl (hd ▸ hu).symm))
  | cb :: b', d :: r', t, u, hb, hr, ht, hu, h => by
      obtain ⟨s, hs⟩ := h
      simp only [List.cons_append, List.append_assoc] at hs
      obtain ⟨h1, h2⟩ := (List.cons.injEq cb (b' ++ (t ++ s)) d (r' ++ u)).mp hs
      obtain ⟨e1, e2⟩ := chunkSplit_pre b' r' t u
        (fun hm => hb (List.mem_cons.mpr (Or.inr hm)))
        (fun hm => hr (List.mem_cons.mpr (Or.inr hm))) ht hu
        ⟨s, by rw [List.append_assoc]; exact h2⟩
      exact ⟨by rw [h1, e1], e2⟩

theorem renderTail_head (ps : List (List Char)) :
    renderTail ps = [] ∨ (renderTail ps).head? = some '/' := by
  cases ps with
  | nil => exact Or.inl rfl
  | cons p ps => exact Or.inr rfl

theorem renderTail_pre : ∀ (bs rs : List (List Char)),
    (∀ p ∈ bs, goodComp p) → (∀ p ∈ rs, goodComp p) →
    (renderTail bs ++ ['/']) <+: renderTail rs → bs <+: rs
  | [], rs, _, _, _ => ⟨rs, rfl⟩
  | b :: bs', [], hb, _, h => by
      exfalso
      have hlen := h.length_le
      simp [renderTail] at hlen
  | b :: bs', r :: rs', hb, hr, h => by
      rw [renderTail, renderTail, List.cons_append] at h
      obtain ⟨-, h⟩ := List.cons_prefix_cons.mp h
      rw [List.append_assoc] at h
      have hhead : (renderTail bs' ++ ['/']).head? = some '/' := by
        cases bs' with
        | nil => rfl
        | cons q qs => rfl
      obtain ⟨e1, e2⟩ := chunkSplit_pre b r (renderTail bs' ++ ['/']) (renderTail rs')
        (hb b (List.mem_cons_self b bs')).2 (hr r (List.mem_cons_self r rs')).2
        hhead (renderTail_head rs') h
      have hrec := renderTail_pre bs' rs'
        (fun p hp => hb p (List.mem_cons.mpr (Or.inr hp)))
        (fun p hp => hr p (List.mem_cons.mpr (Or.inr hp))) e2
      exact List.cons_prefix_cons.mpr ⟨e1, hrec⟩

theorem renderTail_inj : ∀ (bs rs : List (List Char)),
    (∀ p ∈ bs, goodComp p) → (∀ p ∈ rs, goodComp p) →
    renderTail bs = renderTail rs → bs = rs
  | [], [], _, _, _ => rfl
  | [], r :: rs', _, _, h => by simp [renderTail] at h
  | b :: bs', [], _, _, h => by simp [renderTail] at h
  | b :: bs', r :: rs', hb, hr, h => by
      rw [renderTail, renderTail] at h
      obtain ⟨-, h2⟩ := (List.cons.injEq '/' (b ++ renderTail bs') '/' (r ++ renderTail rs')).mp h
      obtain ⟨e1, e2⟩ := chunkSplit_eq b r (renderTail bs') (renderTail rs')
        (hb b (List.mem_cons_self b bs')).2 (hr r (List.mem_cons_self r rs')).2
        (renderTail_head bs') (renderTail_head rs') h2
      rw [e1, renderTail_inj bs' rs'
        (fun p hp => hb p (List.mem_cons.mpr (Or.inr hp)))
        (fun p hp => hr p (List.mem_cons.mpr (Or.inr hp))) e2]

theorem renderAbs_pre (bs rs : List (List Char))
    (hb : ∀ p ∈ bs, goodComp p) (hr : ∀ p ∈ rs, goodComp p)
    (h : (renderAbs bs ++ ['/']) <+: renderAbs rs) : bs <+: rs := by
  cases bs with
  | nil => exact ⟨rs, rfl⟩
  | cons b bs' =>
      cases rs with
      | nil =>
          exfalso
          have hlen := h.length_le
          simp [renderAbs, renderTail] at hlen
      | cons r rs' =>
          exact renderTail_pre (b :: bs') (r :: rs') hb hr (by simpa [renderAbs] using h)

theorem renderAbs_inj (bs rs : List (List Char))
    (hb : ∀ p ∈ bs, goodComp p) (hr : ∀ p ∈ rs, goodComp p)
    (h : renderAbs bs = renderAbs rs) : bs = rs := by
  cases bs with
  | nil =>
      cases rs with
      | nil => rfl
      | cons r rs' =>
          exfalso
          simp only [renderAbs, if_true, if_neg (List.cons_ne_nil r rs'), renderTail] at h
          obtain ⟨-, h2⟩ := (List.cons.injEq '/' [] '/' (r ++ renderTail rs')).mp (by simpa using h)
          exact (hr r (List.mem_cons_self r rs')).1 (List.append_eq_nil.mp h2.symm).1
  | cons b bs' =>
      cases rs with
      | nil =>
          exfalso
          simp only [renderAbs, if_neg (List.cons_ne_nil b bs'), if_true, renderTail] at h
          obtain ⟨-, h2⟩ := (List.cons.injEq '/' (b ++ renderTail bs') '/' []).mp (by simpa using h)
          exact (hb b (List.mem_cons_self b bs')).1 (List.append_eq_nil.mp h2).1
      | cons r rs' =>
          exact renderTail_inj (b :: bs') (r :: rs') hb hr (by simpa [renderAbs] using h)

/-- Claim C3: for every storage key whose resolution lies outside the storage
root directory, `safeJoin` raises `Unsafe path` instead of returning a path —
the file path resolved for download can never escape the storage root. -/
theorem safeJoin_blocks_escape (baseDir storageKey : List Char)
    (h : insideRoot baseDir storageKey = false) :
    safeJoin baseDir storageKey = .error ("Unsafe path".data) := by
  have hpre : ¬((resolveBase baseDir ++ ['/']).isPrefixOf
      (resolvePath baseDir storageKey) = true) := by
    intro hp
    rw [isPrefixOf_true_iff] at hp
    have h1 := renderAbs_pre (rootComps baseDir) (resolveComps baseDir storageKey)
      (rootComps_good baseDir) (resolveComps_good baseDir storageKey) hp
    have h2 := (isPrefixOf_true_iff _ _).mpr h1
    rw [insideRoot] at h
    exact Bool.false_ne_true (h.symm.trans h2)
  have hne : resolvePath baseDir storageKey ≠ resolveBase baseDir := by
    intro heq
    have h1 := renderAbs_inj (resolveComps baseDir storageKey) (rootComps baseDir)
      (resolveComps_good baseDir storageKey) (rootComps_good baseDir) heq
    have h2 : (rootComps baseDir).isPrefixOf (resolveComps baseDir storageKey) = true := by
      rw [h1]
      exact (isPrefixOf_true_iff _ _).mpr ⟨[], List.append_nil _⟩
    rw [insideRoot] at h
    exact Bool.false_ne_true (h.symm.trans h2)
  rw [safeJoin, if_pos ⟨hpre, hne⟩]

/-- Witness for C3 at a concrete key: a sibling-directory traversal key (the
kind the naive string-prefix check of the legacy entrypoint would admit)
resolves outside the root and `safeJoin` rejects it. -/
theorem safeJoin_blocks_escape_witness :
    insideRoot ("/srv/storage/audits".data) ("../audits-evil/secret.txt".data) = false
    ∧ safeJoin ("/srv/storage/audits".data) ("../audits-evil/secret.txt".data)
        = .error ("Unsafe path".data) :=
  ⟨by decide, safeJoin_blocks_escape _ _ (by decide)⟩

end AuditTool
